import Mathlib

/-!
Verification of the fast-rlm recursive orchestration engine.

Shallow embedding of the core of the repository:
* `truncateText` — output truncation policy (src/subagents.ts, lines 47-61);
* `trackUsage` / `getTotalUsage` — the process-wide usage accountant (src/usage.ts);
* `flushBatch` — the parallel batch scheduler's drain (src/parallel.ts, lines 129-201);
* `runAgent` / `runSteps` / `runStep` / `execCmds` / `llmQuery` — the per-run
  step loop of `subagent` together with the spawn primitive `llm_query`
  (src/subagents.ts, lines 67-262).

Conventions of the embedding:
* JS numbers holding token counts and dollar cost become `ℤ` (token counts
  are integers; for cost, an arbitrary fixed currency sub-unit — every
  operation the code performs on these numbers is addition or order
  comparison, which any ordered additive model renders identically; float
  rounding is outside the embedding).  A cost that is JS `undefined`
  (provider did not report it) is `Option.none` in a delta, and an
  accumulator whose cost became `NaN` (after `+= undefined`) is also
  `Option.none` — `NaN` compares false against every ceiling, exactly as the
  code's `totalUsage.cost > MAX_MONEY_SPENT` does.
* The completion provider is an oracle: each run carries the list of step
  responses (`StepResp`) the provider would return, and the code a response
  carries is a small command language (`Cmd`) describing what the generated
  Python does to the sandbox: print, raise, set the final value, or spawn a
  child run via `llm_query`.
* The interpreter is fuel-indexed; running out of fuel (or of oracle entries)
  yields the distinguished outcome `stuck`, an artifact of the embedding that
  never occurs for adequate fuel.
* Wall-clock timestamps, spinner UI, pino log transport, and the verbatim text
  of the Python preview snippet are irrelevant to every claim; string constants
  whose exact characters no claim depends on are rendered with Python quoting
  sanitized (noted at each definition).
-/

namespace FastRlm

/-- The character list of a string, last `n` characters:
`⟨s.data.drop (s.data.length - n)⟩`. -/
def takeRightStr (s : String) (n : ℕ) : String :=
  ⟨s.data.drop (s.data.length - n)⟩

/-- JS `s.slice(-n)` for a natural `n`.  For `n = 0`, `-0` is `0` and JS
returns the whole string; for `n ≥ 1` it returns the last `min n s.length`
characters. -/
def jsSliceFromEnd (s : String) (n : ℕ) : String :=
  if n = 0 then s else takeRightStr s n

/-- JS `s.includes(pat)` — substring containment, via list infix. -/
def containsSubstr (s pat : String) : Bool :=
  decide (pat.data <:+: s.data)

/-- Whitespace test for `jsTrim` (space, newline, tab, carriage return). -/
def isWsChar (c : Char) : Bool :=
  c = ' ' || c = '\n' || c = '\t' || c = '\r'

/-- JS `s.trim()`: strip whitespace from both ends. -/
def jsTrim (s : String) : String :=
  ⟨((s.data.dropWhile isWsChar).reverse.dropWhile isWsChar).reverse⟩

/-- src/subagents.ts lines 47-61, `truncateText`, with the configured
`TRUNCATE_LEN` made a parameter.

```ts
if (text.length > TRUNCATE_LEN) {
    truncatedOutput = `[TRUNCATED: Last N chars shown].. ` + text.slice(-TRUNCATE_LEN);
} else {
    if (text.length == 0) { truncatedOutput = "[EMPTY OUTPUT]"; }
    else { truncatedOutput = "[FULL OUTPUT SHOWN]... " + text; }
}
``` -/
def truncateText (truncate_len : ℕ) (text : String) : String :=
  if text.length > truncate_len then
    "[TRUNCATED: Last " ++ toString truncate_len ++ " chars shown].. "
      ++ jsSliceFromEnd text truncate_len
  else
    if text.length = 0 then
      "[EMPTY OUTPUT]"
    else
      "[FULL OUTPUT SHOWN]... " ++ text

/-- The `Usage` record of src/call_llm.ts: token counts are always numbers
(the client coalesces missing fields with `?? 0`), `cost` may be `undefined`
(`none`). In the global accumulator, `none` stands for `NaN` (see `addCost`). -/
structure Usage where
  prompt_tokens : ℤ
  completion_tokens : ℤ
  total_tokens : ℤ
  cached_tokens : ℤ
  reasoning_tokens : ℤ
  cost : Option ℤ
  deriving DecidableEq

/-- JS `acc.cost += delta.cost`: number + number adds; adding `undefined`
produces `NaN`, and `NaN` plus anything stays `NaN`.  `none` on the left is
`NaN`, `none` on the right is `undefined`/`NaN`; either way the result is
`NaN`. -/
def addCost : Option ℤ → Option ℤ → Option ℤ
  | some a, some b => some (a + b)
  | _, _ => none

/-- src/usage.ts lines 22-29, `trackUsage`: add every field of the delta to the
corresponding accumulator field. -/
def trackUsage (g : Usage) (u : Usage) : Usage :=
  { prompt_tokens := g.prompt_tokens + u.prompt_tokens
    completion_tokens := g.completion_tokens + u.completion_tokens
    total_tokens := g.total_tokens + u.total_tokens
    cached_tokens := g.cached_tokens + u.cached_tokens
    reasoning_tokens := g.reasoning_tokens + u.reasoning_tokens
    cost := addCost g.cost u.cost }

/-- src/usage.ts lines 7-14: the accumulator's initial value (all zeros, cost
0). -/
def initialUsage : Usage :=
  { prompt_tokens := 0, completion_tokens := 0, total_tokens := 0
    cached_tokens := 0, reasoning_tokens := 0, cost := some 0 }

/-- src/usage.ts lines 36-38, `getTotalUsage`: returns a copy of the
accumulator (`{ ...globalUsage }`). -/
def getTotalUsage (g : Usage) : Usage := g

/-- The accumulator after a sequence of `trackUsage` calls starting from the
initial value. -/
def applyDeltas (ds : List Usage) : Usage := ds.foldl trackUsage initialUsage

/-- A delta all of whose fields are non-negative numbers (cost present). -/
def fieldsNonneg (u : Usage) : Prop :=
  0 ≤ u.prompt_tokens ∧ 0 ≤ u.completion_tokens ∧ 0 ≤ u.total_tokens ∧
  0 ≤ u.cached_tokens ∧ 0 ≤ u.reasoning_tokens ∧
  ∃ c, u.cost = some c ∧ 0 ≤ c

/-- Field-wise "no field decreased" between two accumulator snapshots; for the
cost field, a numeric (non-`NaN`) cost never drops to a smaller number. -/
def usageLe (a b : Usage) : Prop :=
  a.prompt_tokens ≤ b.prompt_tokens ∧
  a.completion_tokens ≤ b.completion_tokens ∧
  a.total_tokens ≤ b.total_tokens ∧
  a.cached_tokens ≤ b.cached_tokens ∧
  a.reasoning_tokens ≤ b.reasoning_tokens ∧
  ∀ ca, a.cost = some ca → ∃ cb, b.cost = some cb ∧ ca ≤ cb

/-- The numeric cost of a delta whose cost is present (0 if absent). -/
def costOf (u : Usage) : ℤ := u.cost.getD 0

/-! ## Parallel batch scheduler (src/parallel.ts) -/

/-- A pending submission held by the scheduler (src/parallel.ts,
`PendingQuery`): its id and context.  The resolve/reject callbacks are
represented by the settlement list the drain produces. -/
structure PendingQuery where
  id : ℕ
  context : String
  deriving DecidableEq

/-- Settlement of one member's promise: resolved with a value or rejected with
an error message. -/
inductive Settle where
  | resolved (v : String)
  | rejected (msg : String)
  deriving DecidableEq

/-- The scheduler's statistics record (src/parallel.ts lines 75-80). -/
structure SchedStats where
  totalQueries : ℕ
  parallelBatches : ℕ
  sequentialQueries : ℕ
  totalParallelQueries : ℕ
  deriving DecidableEq

/-- Everything observable from one `flushBatch` drain: the per-member
settlements in execution order, the `onParallelStart` invocations
(group id, reported count), the `onParallelComplete` invocations
(group id, reported query count; the wall-clock elapsed-time argument is not
modelled), and the updated statistics. -/
structure FlushResult where
  settlements : List (ℕ × Settle)
  startEvents : List (ℕ × ℕ)
  completeEvents : List (ℕ × ℕ)
  stats : SchedStats
  deriving DecidableEq

/-- Model of `batches.push(queries.slice(i, i + maxParallel))` for
`i = 0, k, 2k, …` (src/parallel.ts lines 167-170).  Fuel equals the list length; each round
removes at least one element when `1 ≤ k`, which is the only way `flushBatch`
calls it. -/
def chunkListAux {α : Type} : ℕ → ℕ → List α → List (List α)
  | 0, _, _ => []
  | _, _, [] => []
  | fuel + 1, k, x :: xs => (x :: xs).take k :: chunkListAux fuel k ((x :: xs).drop k)

/-- Partition a list into consecutive chunks of at most `k` elements. -/
def chunkList {α : Type} (k : ℕ) (xs : List α) : List (List α) :=
  chunkListAux xs.length k xs

/-- src/parallel.ts lines 129-201, `flushBatch`: drain the pending set into one
cohort.  `f` is the injected `subagentFn` (context, optional parallel group
id); `freshGid` is the value `generateParallelGroupId()` would produce for this
drain (in the source a timestamp/random string, here an abstract number).

* empty cohort — nothing happens;
* one member — executed directly with no group id, counted sequential;
* two or more — one fresh group id for all, `onParallelStart` once with
  `Math.min(queries.length, maxParallel)`, members run chunk after chunk via
  `Promise.allSettled`, each settled from its own result, and
  `onParallelComplete` once with the cohort size. -/
def flushBatch (maxParallelChildren : ℕ) (f : String → Option ℕ → Settle)
    (freshGid : ℕ) (pending : List PendingQuery) (stats : SchedStats) :
    FlushResult :=
  match pending with
  | [] => ⟨[], [], [], stats⟩
  | [q] =>
      ⟨[(q.id, f q.context none)], [], [],
        { stats with sequentialQueries := stats.sequentialQueries + 1 }⟩
  | qs =>
      let gid := freshGid
      let stats' := { stats with
        parallelBatches := stats.parallelBatches + 1
        totalParallelQueries := stats.totalParallelQueries + qs.length }
      let maxParallel := if 0 < maxParallelChildren then maxParallelChildren else qs.length
      let batches := chunkList maxParallel qs
      ⟨(batches.map (fun b => b.map (fun q => (q.id, f q.context (some gid))))).flatten,
        [(gid, min qs.length maxParallel)],
        [(gid, qs.length)],
        stats'⟩

/-! ## The orchestration engine (src/subagents.ts) -/

/-- The budget/engine configuration (src/subagents.ts lines 36-45).
`maxMoney = none` models the default `Infinity` (`max_money_spent ??
Infinity`); every comparison against it is false. -/
structure Config where
  maxCalls : ℕ
  maxDepth : ℕ
  truncateLen : ℕ
  maxMoney : Option ℤ
  maxCompletionTokens : ℤ
  maxPromptTokens : ℤ
  primaryAgent : String
  subAgent : String
  deriving DecidableEq

/-- Model of `totalUsage.cost != null && totalUsage.cost > MAX_MONEY_SPENT`
(src/subagents.ts line 181): false when the accumulated cost is `NaN`
(`none`) and false when the ceiling is `Infinity` (`none`). -/
def costExceeded (cfg : Config) (c : Option ℤ) : Bool :=
  match c, cfg.maxMoney with
  | some c, some m => decide (m < c)
  | _, _ => false

/-- The three straight-line ceiling checks after `trackUsage`
(src/subagents.ts lines 180-190), in source order: money, then completion
tokens, then prompt tokens; each throws on its own. -/
inductive RunError where
  | budgetCost
  | budgetCompletion
  | budgetPrompt
  | stepsExhausted
  deriving DecidableEq

/-- The text of the `Error` thrown for each failure (numeric interpolations of
the source messages elided — no claim depends on the digits). -/
def RunError.message : RunError → String
  | .budgetCost => "Budget exceeded"
  | .budgetCompletion => "Completion token budget exceeded"
  | .budgetPrompt => "Prompt token budget exceeded"
  | .stepsExhausted => "Did not finish the function stack before subagent died"

/-- src/subagents.ts lines 181-190: the ceiling checks run on a fresh
`getTotalUsage()` snapshot; the first breached ceiling throws. -/
def checkBudgets (cfg : Config) (t : Usage) : Option RunError :=
  if costExceeded cfg t.cost then some .budgetCost
  else if cfg.maxCompletionTokens < t.completion_tokens then some .budgetCompletion
  else if cfg.maxPromptTokens < t.prompt_tokens then some .budgetPrompt
  else none

/-- One record per `generate_code` call: which run issued it, at which depth,
with which model, and whether the leaf-agent system prompt was used
(`is_leaf_agent` — src/subagents.ts line 76 and call_llm.ts line 255, where
the system message is `is_leaf_agent ? LEAF_AGENT_SYSTEM_PROMPT :
SYSTEM_PROMPT`). -/
structure ModelRequest where
  runId : ℕ
  depth : ℕ
  modelName : String
  promptLeaf : Bool
  deriving DecidableEq

/-- One event of the structured log (src/logging.ts): agent start, a step
(output and error flag are absent exactly when the source's `logStep` call
omits them), the distinguished final-result event, agent end.  Reasoning,
timestamps and the global-usage enrichment are not modelled. -/
inductive LogEvent where
  | agentStart (runId : ℕ) (parent : Option ℕ) (depth : ℕ)
  | step (runId depth stepIdx : ℕ) (output : Option String)
      (hasError : Option Bool) (usage : Usage)
  | finalResult (runId : ℕ) (value : Option String)
  | agentEnd (runId : ℕ)
  deriving DecidableEq

/-- The process-wide mutable state: the `globalUsage` accumulator, the
append-only log, the record of completion requests issued, and the counter
yielding fresh run ids (the source's random `generateRunId`). -/
structure GlobalState where
  usage : Usage
  log : List LogEvent
  requests : List ModelRequest
  nextRunId : ℕ
  deriving DecidableEq

/-- One transcript message (role/content; reasoning not modelled). -/
structure Message where
  role : String
  content : String
  deriving DecidableEq

mutual

/-- What a piece of generated code does when the sandbox runs it, in order:
print a line, raise an uncaught error, call `FINAL`/`FINAL_VAR`, or `await
llm_query(ctx)` whose child run would be driven by the given oracle steps. -/
inductive Cmd where
  | print (s : String)
  | raiseErr (msg : String)
  | setFinal (v : String)
  | spawn (ctx : String) (steps : List StepResp)

/-- One completion-provider response (the `generate_code` return value):
raw assistant content, the extracted-code success flag, the usage record, and
the behaviour of the extracted code. -/
inductive StepResp where
  | mk (content : String) (success : Bool) (usage : Usage) (code : List Cmd)

end

/-- Assistant content of a response. -/
def StepResp.content : StepResp → String
  | .mk c _ _ _ => c

/-- Whether a `repl` code block was extracted (`success`). -/
def StepResp.success : StepResp → Bool
  | .mk _ s _ _ => s

/-- The usage record of a response. -/
def StepResp.usage : StepResp → Usage
  | .mk _ _ u _ => u

/-- The behaviour of the extracted code of a response. -/
def StepResp.code : StepResp → List Cmd
  | .mk _ _ _ c => c

/-- Sandbox-side state of one run: the captured `stdoutBuffer` and the
`__final_result__` / `__final_result_set__` globals. -/
structure ExecState where
  buffer : String
  finalSet : Bool
  finalVal : Option String
  deriving DecidableEq

/-- Per-run engine state: the transcript and the sandbox state. -/
structure RunState where
  messages : List Message
  es : ExecState
  deriving DecidableEq

/-- Result of running one code string in the sandbox: ran to completion,
aborted with an uncaught error (to be folded into the buffer by the engine's
catch), or out of fuel. -/
inductive ExecSignal where
  | done
  | raised (msg : String)
  | stuck
  deriving DecidableEq

/-- Result of one `llm_query` invocation as seen by the generated code. -/
inductive SpawnResult where
  | ok (v : Option String)
  | error (msg : String)
  | stuck
  deriving DecidableEq

/-- Outcome of one whole run: returned a final value, threw, or the embedding
ran out of fuel/oracle. -/
inductive RunOutcome where
  | ok (v : Option String)
  | err (e : RunError)
  | stuck
  deriving DecidableEq

/-- Outcome of one loop iteration (src/subagents.ts lines 168-258). -/
inductive StepOut where
  | cont (st : RunState) (g : GlobalState)
  | finished (v : Option String) (g : GlobalState)
  | failed (e : RunError) (g : GlobalState)
  | stuck (g : GlobalState)

/-- The global state carried by a `StepOut`. -/
def StepOut.global : StepOut → GlobalState
  | .cont _ g => g
  | .finished _ g => g
  | .failed _ g => g
  | .stuck g => g

/-- The message of the depth-guard error in `llm_query`
(src/subagents.ts lines 89-90). -/
def depthExceededMsg : String :=
  "MAXIMUM DEPTH REACHED. You must solve this task on your own without calling llm_query."

/-- The corrective user message appended when no code could be extracted
(src/subagents.ts lines 200-204). -/
def correctiveMessage : String :=
  "Error: We could not extract code because you may not have used repl block!"

/-- The text printed by the deterministic step-0 preview snippet
(src/subagents.ts lines 121-131) as captured through the stdout handler, which
appends a newline per print.  Python's quoting of `type(context)` is rendered
without inner quotes; the exact characters are irrelevant to every claim. -/
def initialPreview (context : String) : String :=
  "Context type:  <class str>\n"
    ++ "Context length: " ++ toString context.length ++ "\n"
    ++ (if context.length > 500 then
          "First 500 characters of str(context):  " ++ context.take 500 ++ "\n"
            ++ "---\n"
            ++ "Last 500 characters of str(context):  " ++ takeRightStr context 500 ++ "\n"
        else
          "Context:  " ++ context ++ "\n")

/-- The step-0 preview snippet as text (src/subagents.ts lines 121-131;
Python braces and quotes sanitized — no claim reads this constant). -/
def initialCodeText : String :=
  "print(Context type, type(context))\nprint(f Context length, len(context))\n\nif len(context) > 500: print head, tail\nelse: print context"

/-- Content of the first transcript message (src/subagents.ts lines 136-144):
the truncation notice, the preview code, and its trimmed output. -/
def firstMessageContent (truncateLen : ℕ) (trimmedPreview : String) : String :=
  "\nOutputs will always be truncated to last " ++ toString truncateLen
    ++ " characters.\ncode:\n```repl\n" ++ initialCodeText ++ "\n```\n\nOutput:\n"
    ++ trimmedPreview ++ "\n    "

/-- The zero usage record attached to step 0 (src/subagents.ts lines 147-154);
its `cost` is `undefined`. -/
def noUsage : Usage :=
  { prompt_tokens := 0, completion_tokens := 0, total_tokens := 0
    cached_tokens := 0, reasoning_tokens := 0, cost := none }

/-- src/subagents.ts lines 220-257, the tail of one executed step: compute the
truncated output; if `__final_result_set__` log the step (no output field),
log the final result and agent end, and return; otherwise compute
`hasError = stdoutBuffer.includes("Error")`, log the step with the truncated
output and the flag, and append the output as the next user message. -/
def finishStep (cfg : Config) (depth runId i : ℕ) (resp : StepResp)
    (st : RunState) (es : ExecState) (g : GlobalState) : StepOut :=
  let truncated := truncateText cfg.truncateLen es.buffer
  if es.finalSet then
    .finished es.finalVal
      { g with log := g.log ++
          [.step runId depth (i + 1) none none resp.usage,
           .finalResult runId es.finalVal,
           .agentEnd runId] }
  else
    .cont
      { st with es := es
                messages := st.messages ++ [⟨"user", "Output: \n" ++ truncated⟩] }
      { g with log := g.log ++
          [.step runId depth (i + 1) (some truncated)
             (some (containsSubstr es.buffer "Error")) resp.usage] }

mutual

/-- src/subagents.ts lines 87-100, the spawn primitive `llm_query` bound into
the sandbox: at `subagent_depth >= MAX_DEPTH` it appends the depth-exceeded
marker to `stdoutBuffer` and throws (no child run, no usage recorded);
otherwise it recurses into `subagent(context, depth + 1, parent_run_id)`.  A
child that throws makes the `llm_query` promise reject with that error. -/
def llmQuery : ℕ → Config → ℕ → ℕ → String → List StepResp → ExecState →
    GlobalState → SpawnResult × ExecState × GlobalState
  | 0, _, _, _, _, _, es, g => (.stuck, es, g)
  | fuel + 1, cfg, depth, runId, ctx, steps, es, g =>
    if cfg.maxDepth ≤ depth then
      (.error depthExceededMsg,
        { es with buffer := es.buffer ++ "\nError: " ++ depthExceededMsg ++ "\n" },
        g)
    else
      match runAgent fuel cfg ctx steps (depth + 1) (some runId) g with
      | (.ok v, g') => (.ok v, es, g')
      | (.err e, g') => (.error e.message, es, g')
      | (.stuck, g') => (.stuck, es, g')
termination_by structural fuel _cfg _d _r _c _s _es _g => fuel

/-- Run the commands of one generated code string in order against the
sandbox state.  An uncaught raise (including a rejected `llm_query`) aborts
the rest of the commands and surfaces as `ExecSignal.raised`, which the
engine's catch folds into the buffer. -/
def execCmds : ℕ → Config → ℕ → ℕ → List Cmd → ExecState → GlobalState →
    ExecSignal × ExecState × GlobalState
  | 0, _, _, _, _, es, g => (.stuck, es, g)
  | _ + 1, _, _, _, [], es, g => (.done, es, g)
  | fuel + 1, cfg, depth, runId, c :: cs, es, g =>
    match c with
    | .print s =>
        execCmds fuel cfg depth runId cs { es with buffer := es.buffer ++ s ++ "\n" } g
    | .raiseErr msg => (.raised msg, es, g)
    | .setFinal v =>
        execCmds fuel cfg depth runId cs { es with finalSet := true, finalVal := some v } g
    | .spawn ctx steps =>
        match llmQuery fuel cfg depth runId ctx steps es g with
        | (.ok _, es', g') => execCmds fuel cfg depth runId cs es' g'
        | (.error msg, es', g') => (.raised msg, es', g')
        | (.stuck, es', g') => (.stuck, es', g')
termination_by structural fuel _cfg _d _r _cs _es _g => fuel

/-- src/subagents.ts lines 168-258, the body of loop iteration `i`: issue one
completion request (recording model identity and which system prompt was
used), push the assistant message, `trackUsage` and check the three budget
ceilings (a breach throws immediately), handle the no-code case (log without
output, append the corrective message, continue), otherwise reset the buffer,
execute the code folding an uncaught error into the buffer as
`"\nError: " + message + " "`, and finish via `finishStep`. -/
def runStep : ℕ → Config → ℕ → ℕ → Bool → String → ℕ → StepResp → RunState →
    GlobalState → StepOut
  | 0, _, _, _, _, _, _, _, _, g => .stuck g
  | fuel + 1, cfg, depth, runId, isLeaf, modelName, i, resp, st, g =>
    let g1 := { g with requests := g.requests ++ [({ runId := runId, depth := depth, modelName := modelName, promptLeaf := isLeaf } : ModelRequest)] }
    let st1 := { st with messages := st.messages ++ [⟨"assistant", resp.content⟩] }
    let g2 := { g1 with usage := trackUsage g1.usage resp.usage }
    match checkBudgets cfg (getTotalUsage g2.usage) with
    | some e => .failed e g2
    | none =>
      if resp.success then
        let es0 := { st1.es with buffer := "" }
        match execCmds fuel cfg depth runId resp.code es0 g2 with
        | (.done, es', g') => finishStep cfg depth runId i resp st1 es' g'
        | (.raised msg, es', g') =>
            finishStep cfg depth runId i resp st1
              { es' with buffer := es'.buffer ++ "\nError: " ++ msg ++ " " } g'
        | (.stuck, _, g') => .stuck g'
      else
        .cont
          { st1 with messages := st1.messages ++ [⟨"user", correctiveMessage⟩] }
          { g2 with log := g2.log ++ [.step runId depth (i + 1) none none resp.usage] }
termination_by structural fuel _cfg _d _r _l _m _i _p _st _g => fuel

/-- The `for (let i = 0; i < MAX_CALLS; i++)` loop (src/subagents.ts lines
168-261): when the counter reaches `MAX_CALLS` the run logs agent end and
throws `stepsExhausted`; otherwise it consumes the next oracle response and
dispatches on the iteration's outcome. -/
def runSteps : ℕ → Config → ℕ → ℕ → Bool → String → ℕ → List StepResp →
    RunState → GlobalState → RunOutcome × GlobalState
  | 0, _, _, _, _, _, _, _, _, g => (.stuck, g)
  | fuel + 1, cfg, depth, runId, isLeaf, modelName, i, oracle, st, g =>
    if cfg.maxCalls ≤ i then
      (.err .stepsExhausted, { g with log := g.log ++ [.agentEnd runId] })
    else
      match oracle with
      | [] => (.stuck, g)
      | resp :: rest =>
        match runStep fuel cfg depth runId isLeaf modelName i resp st g with
        | .cont st' g' => runSteps fuel cfg depth runId isLeaf modelName (i + 1) rest st' g'
        | .finished v g' => (.ok v, g')
        | .failed e g' => (.err e, g')
        | .stuck g' => (.stuck, g')
termination_by structural fuel _cfg _d _r _l _m _i _o _st _g => fuel

/-- src/subagents.ts lines 67-262, one `subagent` invocation: allocate a run
id, log agent start, fix the model identity (`PRIMARY_AGENT` at depth 0, else
`SUB_AGENT`) and `is_leaf_agent = (subagent_depth == MAX_DEPTH)`, run the
deterministic step-0 preview (logged with zero usage and no model call), seed
the transcript, and enter the step loop. -/
def runAgent : ℕ → Config → String → List StepResp → ℕ → Option ℕ →
    GlobalState → RunOutcome × GlobalState
  | 0, _, _, _, _, _, g => (.stuck, g)
  | fuel + 1, cfg, context, oracle, depth, parent, g =>
    let runId := g.nextRunId
    let isLeaf := decide (depth = cfg.maxDepth)
    let modelName := if depth = 0 then cfg.primaryAgent else cfg.subAgent
    let preview := initialPreview context
    let g1 := { g with
      nextRunId := runId + 1
      log := g.log ++
        [.agentStart runId parent depth,
         .step runId depth 0 (some (jsTrim preview)) (some false) noUsage] }
    let st : RunState :=
      ⟨[⟨"user", firstMessageContent cfg.truncateLen (jsTrim preview)⟩],
       ⟨preview, false, none⟩⟩
    runSteps fuel cfg depth runId isLeaf modelName 0 oracle st g1
termination_by structural fuel _cfg _c _o _d _p _g => fuel

end

/-! ## Concrete scenario inputs used by counterexamples and witnesses -/

/-- A fresh process: zeroed accumulator, empty log, no requests, run ids from
0. -/
def g0 : GlobalState := ⟨initialUsage, [], [], 0⟩

/-- A small usage delta with a reported zero cost. -/
def u0 : Usage :=
  { prompt_tokens := 1, completion_tokens := 1, total_tokens := 2
    cached_tokens := 0, reasoning_tokens := 0, cost := some 0 }

/-- A usage delta whose reported cost (2) exceeds the 1-dollar ceiling of
`cfg3`. -/
def uBig : Usage :=
  { prompt_tokens := 1, completion_tokens := 1, total_tokens := 2
    cached_tokens := 0, reasoning_tokens := 0, cost := some 2 }

/-- A usage delta whose cost the provider did not report (`undefined`). -/
def uUndef : Usage :=
  { prompt_tokens := 1, completion_tokens := 1, total_tokens := 2
    cached_tokens := 0, reasoning_tokens := 0, cost := none }

/-- A usage delta whose reported cost (5) breaches the money ceiling of `cfg3`
on its own. -/
def uHuge : Usage :=
  { prompt_tokens := 1, completion_tokens := 1, total_tokens := 2
    cached_tokens := 0, reasoning_tokens := 0, cost := some 5 }

/-- A configuration with `max_depth = 1` and a 1-dollar money ceiling. -/
def cfg3 : Config :=
  { maxCalls := 5, maxDepth := 1, truncateLen := 5000, maxMoney := some 1
    maxCompletionTokens := 50000, maxPromptTokens := 200000
    primaryAgent := "primary", subAgent := "sub" }

/-- Provider oracle of the child run: its first model call alone costs 2
dollars, breaching the 1-dollar ceiling. -/
def childOracle3 : List StepResp := [.mk "cmsg" true uBig []]

/-- Provider oracle of the root run: step 1 spawns the over-budget child;
step 2 (whose delta carries an unreported cost, so the accumulator turns
`NaN`) sets the final value. -/
def rootOracle3 : List StepResp :=
  [.mk "m1" true u0 [.spawn "childctx" childOracle3],
   .mk "m2" true uUndef [.setFinal "done"]]

/-- Whether a logged step event's output records a folded budget-breach
error. -/
def hasBudgetBreachOutput : LogEvent → Bool
  | .step _ _ _ (some o) _ _ => containsSubstr o "Budget exceeded"
  | _ => false

/-- A subagent function for scheduler scenarios: resolves every context. -/
def fW (ctx : String) (gid : Option ℕ) : Settle :=
  Settle.resolved (ctx ++ toString (gid.getD 99))

/-- Zeroed scheduler statistics. -/
def stats0 : SchedStats := ⟨0, 0, 0, 0⟩

/-- An empty sandbox state. -/
def esW : ExecState := ⟨"", false, none⟩

/-- A sandbox state whose captured output merely mentions the word Error. -/
def esE : ExecState := ⟨"value Error in data", false, none⟩

/-- An empty run state. -/
def stW0 : RunState := ⟨[], esW⟩

/-- A provider response with no extractable code. -/
def respF : StepResp := .mk "prose only" false u0 []

/-- A provider response whose model call alone breaches the money ceiling of
`cfg3`. -/
def respHuge : StepResp := .mk "pricey" true uHuge []

/-- A configuration whose `max_depth` is 0, so the depth-0 run itself is the
leaf agent. -/
def cfgLeaf : Config :=
  { maxCalls := 5, maxDepth := 0, truncateLen := 5000, maxMoney := none
    maxCompletionTokens := 50000, maxPromptTokens := 200000
    primaryAgent := "primary", subAgent := "sub" }

/-- Oracle for the leaf-prompt scenario: one step that sets the final value. -/
def oracleLeaf : List StepResp := [.mk "m" true u0 [.setFinal "ok"]]

/-- Every recorded completion request used the leaf-agent system prompt
exactly when the issuing run's depth equals `max_depth`. -/
def requestsOk (cfg : Config) (rs : List ModelRequest) : Prop :=
  ∀ r ∈ rs, r.promptLeaf = decide (r.depth = cfg.maxDepth)

end FastRlm

/-! ## Theorems -/

namespace FastRlm

lemma takeRightStr_length (s : String) (T : ℕ) (h : T ≤ s.length) :
    (takeRightStr s T).length = T := by
  have hs : s.length = s.data.length := rfl
  show (s.data.drop (s.data.length - T)).length = T
  rw [List.length_drop]
  omega

lemma takeRightStr_suffix (s : String) (T : ℕ) :
    (takeRightStr s T).data <:+ s.data := by
  show s.data.drop (s.data.length - T) <:+ s.data
  exact List.drop_suffix _ _

/-- C1, amended.  The truncation policy of `truncateText`: an empty capture
becomes the empty marker alone; a capture no longer than the limit gets the
full-output marker and is kept verbatim; a capture longer than a positive
limit `T` gets the truncation marker followed by exactly the last `T`
characters (that block has length `T` and is a suffix of the capture); for
the limit 0, a longer (hence non-empty) capture gets the truncation marker
followed by the whole capture, because JS `slice(-0)` is `slice(0)`. -/
theorem truncate_policy_amended (T : ℕ) (s : String) :
    (s.length = 0 → truncateText T s = "[EMPTY OUTPUT]") ∧
    (0 < s.length → s.length ≤ T →
      truncateText T s = "[FULL OUTPUT SHOWN]... " ++ s) ∧
    (T < s.length → 1 ≤ T →
      truncateText T s
          = "[TRUNCATED: Last " ++ toString T ++ " chars shown].. " ++ takeRightStr s T
        ∧ (takeRightStr s T).length = T ∧ (takeRightStr s T).data <:+ s.data) ∧
    (T = 0 → 0 < s.length →
      truncateText 0 s = "[TRUNCATED: Last 0 chars shown].. " ++ s) := by
  refine ⟨?_, ?_, ?_, ?_⟩
  · intro h0
    simp [truncateText, h0]
  · intro hpos hle
    rw [truncateText, if_neg (by omega), if_neg (by omega)]
  · intro hlt hT
    refine ⟨?_, takeRightStr_length s T (le_of_lt hlt), takeRightStr_suffix s T⟩
    rw [truncateText, if_pos (by omega), jsSliceFromEnd, if_neg (by omega)]
  · intro hT hpos
    subst hT
    rw [truncateText, if_pos (by omega), jsSliceFromEnd, if_pos rfl]
    rfl

/-- C1, counterexample to the claim as stated: with the configured limit
`T = 0` and the one-character capture "a", the code produces the truncation
marker followed by the whole capture, not by the last 0 characters (the empty
string). -/
theorem truncate_zero_limit_cex :
    truncateText 0 "a" ≠ "[TRUNCATED: Last 0 chars shown].. " ++ takeRightStr "a" 0 ∧
    takeRightStr "a" 0 = "" ∧
    truncateText 0 "a" = "[TRUNCATED: Last 0 chars shown].. a" := by
  decide

/-- C1, witness: the amended policy applied at `T = 2`, `s = "abcd"`. -/
theorem truncate_policy_amended_witness :
    truncateText 2 "abcd"
      = "[TRUNCATED: Last " ++ toString 2 ++ " chars shown].. " ++ takeRightStr "abcd" 2 :=
  ((truncate_policy_amended 2 "abcd").2.2.1 (by decide) (by decide)).1

/-- C2.  Every invocation of the spawn primitive in a run whose depth has
reached `max_depth` appends the depth-exceeded marker to the captured output
stream and rejects with that error; the global state is returned untouched —
in particular no child run is started (no log events, no fresh run id) and no
field of the global usage accumulator changes. -/
theorem llm_query_depth_guard (fuel : ℕ) (cfg : Config) (depth runId : ℕ)
    (ctx : String) (steps : List StepResp) (es : ExecState) (g : GlobalState)
    (h : cfg.maxDepth ≤ depth) :
    llmQuery (fuel + 1) cfg depth runId ctx steps es g
      = (.error depthExceededMsg,
         { es with buffer := es.buffer ++ "\nError: " ++ depthExceededMsg ++ "\n" },
         g)
      ∧ (llmQuery (fuel + 1) cfg depth runId ctx steps es g).2.2.usage = g.usage
      ∧ (llmQuery (fuel + 1) cfg depth runId ctx steps es g).2.2.log = g.log
      ∧ (llmQuery (fuel + 1) cfg depth runId ctx steps es g).2.2.nextRunId = g.nextRunId := by
  rw [llmQuery]
  simp [h]

/-- C2, witness: a depth-1 spawn attempt under `max_depth = 1`. -/
theorem llm_query_depth_guard_witness :
    llmQuery 3 cfg3 1 0 "c" [] esW g0
      = (.error depthExceededMsg,
         { esW with buffer := esW.buffer ++ "\nError: " ++ depthExceededMsg ++ "\n" },
         g0) :=
  (llm_query_depth_guard 2 cfg3 1 0 "c" [] esW g0 (by decide)).1

/-- C3, amended.  After every model call the engine checks the three global
ceilings independently (each breached ceiling alone makes the check throw, in
the order money, completion tokens, prompt tokens), and a breach makes the
detecting run fail immediately after the model call; the resulting error
propagates out of the child run to the parent's `llm_query`, where it surfaces
as a rejected spawn to be folded into the parent's captured output — it is
fatal to the run that detects it, not necessarily to the entire run tree. -/
theorem budget_checks_amended (cfg : Config) :
    (∀ t : Usage,
      (checkBudgets cfg t).isSome = true ↔
        (costExceeded cfg t.cost = true ∨
         cfg.maxCompletionTokens < t.completion_tokens ∨
         cfg.maxPromptTokens < t.prompt_tokens)) ∧
    (∀ (fuel depth runId : ℕ) (isLeaf : Bool) (modelName : String) (i : ℕ)
       (resp : StepResp) (st : RunState) (g : GlobalState) (e : RunError),
      checkBudgets cfg (trackUsage g.usage resp.usage) = some e →
      runStep (fuel + 1) cfg depth runId isLeaf modelName i resp st g
        = .failed e { g with
            requests := g.requests ++ [⟨runId, depth, modelName, isLeaf⟩],
            usage := trackUsage g.usage resp.usage }) ∧
    (∀ (fuel depth runId : ℕ) (ctx : String) (steps : List StepResp)
       (es : ExecState) (g g' : GlobalState) (e : RunError),
      depth < cfg.maxDepth →
      runAgent fuel cfg ctx steps (depth + 1) (some runId) g = (.err e, g') →
      llmQuery (fuel + 1) cfg depth runId ctx steps es g = (.error e.message, es, g')) := by
  refine ⟨?_, ?_, ?_⟩
  · intro t
    rw [checkBudgets]
    split_ifs with h1 h2 h3 <;> simp_all
  · intro fuel depth runId isLeaf modelName i resp st g e hb
    rw [runStep]
    simp [getTotalUsage, hb]
  · intro fuel depth runId ctx steps es g g' e hd hrun
    rw [llmQuery]
    simp [Nat.not_le.mpr hd, hrun]

/-- C3, counterexample to "fatal to the entire run tree": in the concrete
scenario `rootOracle3` a child run breaches the money ceiling (its throw is
recorded in the root's captured output, and the child run did start), yet the
whole tree still returns the final value "done" — the root catches the
propagated breach at the executor boundary, folds it into output, and its own
next check passes because the accumulator's cost has become `NaN`. -/
theorem budget_breach_not_tree_fatal_cex :
    checkBudgets cfg3 (trackUsage (trackUsage initialUsage u0) uBig)
        = some RunError.budgetCost ∧
    (runAgent 40 cfg3 "root" rootOracle3 0 none g0).1 = RunOutcome.ok (some "done") ∧
    ((runAgent 40 cfg3 "root" rootOracle3 0 none g0).2.log.any hasBudgetBreachOutput)
        = true ∧
    ((runAgent 40 cfg3 "root" rootOracle3 0 none g0).2.log.contains
        (LogEvent.agentStart 1 (some 0) 1)) = true := by
  decide

/-- C3, witness: a model call whose cost alone breaches the ceiling makes the
run fail right after the call. -/
theorem budget_checks_amended_witness :
    runStep 1 cfg3 0 7 true "m" 0 respHuge stW0 g0
      = .failed RunError.budgetCost
          { g0 with
            requests := g0.requests ++ [⟨7, 0, "m", true⟩],
            usage := trackUsage g0.usage respHuge.usage } :=
  (budget_checks_amended cfg3).2.1 0 0 7 true "m" 0 respHuge stW0 g0
    RunError.budgetCost (by decide)

lemma usageLe_trans (a b c : Usage) (hab : usageLe a b) (hbc : usageLe b c) :
    usageLe a c := by
  obtain ⟨h1, h2, h3, h4, h5, h6⟩ := hab
  obtain ⟨k1, k2, k3, k4, k5, k6⟩ := hbc
  refine ⟨le_trans h1 k1, le_trans h2 k2, le_trans h3 k3, le_trans h4 k4,
    le_trans h5 k5, ?_⟩
  intro ca hca
  obtain ⟨cb, hcb, hle⟩ := h6 ca hca
  obtain ⟨cc, hcc, hle'⟩ := k6 cb hcb
  exact ⟨cc, hcc, le_trans hle hle'⟩

lemma trackUsage_mono (g d : Usage) (hd : fieldsNonneg d) :
    usageLe g (trackUsage g d) := by
  obtain ⟨h1, h2, h3, h4, h5, c, hc, hc0⟩ := hd
  refine ⟨by simp [trackUsage]; omega, by simp [trackUsage]; omega,
    by simp [trackUsage]; omega, by simp [trackUsage]; omega,
    by simp [trackUsage]; omega, ?_⟩
  intro ca hca
  exact ⟨ca + c, by simp [trackUsage, addCost, hca, hc], by omega⟩

lemma foldl_trackUsage_mono (ds : List Usage) : ∀ a : Usage,
    (∀ d ∈ ds, fieldsNonneg d) → usageLe a (ds.foldl trackUsage a) := by
  induction ds with
  | nil =>
      intro a _
      exact ⟨le_refl _, le_refl _, le_refl _, le_refl _, le_refl _,
        fun ca hca => ⟨ca, hca, le_refl _⟩⟩
  | cons d ds ih =>
      intro a h
      refine usageLe_trans a (trackUsage a d) _ (trackUsage_mono a d (h d (by simp))) ?_
      exact ih (trackUsage a d) (fun x hx => h x (by simp [hx]))

lemma foldl_trackUsage_sum (ds : List Usage) : ∀ a : Usage,
    (ds.foldl trackUsage a).prompt_tokens
        = a.prompt_tokens + (ds.map Usage.prompt_tokens).sum ∧
    (ds.foldl trackUsage a).completion_tokens
        = a.completion_tokens + (ds.map Usage.completion_tokens).sum ∧
    (ds.foldl trackUsage a).total_tokens
        = a.total_tokens + (ds.map Usage.total_tokens).sum ∧
    (ds.foldl trackUsage a).cached_tokens
        = a.cached_tokens + (ds.map Usage.cached_tokens).sum ∧
    (ds.foldl trackUsage a).reasoning_tokens
        = a.reasoning_tokens + (ds.map Usage.reasoning_tokens).sum ∧
    ((∀ d ∈ ds, ∃ x, d.cost = some x) → ∀ c, a.cost = some c →
      (ds.foldl trackUsage a).cost = some (c + (ds.map costOf).sum)) := by
  induction ds with
  | nil => intro a; simp
  | cons d ds ih =>
      intro a
      obtain ⟨i1, i2, i3, i4, i5, i6⟩ := ih (trackUsage a d)
      refine ⟨?_, ?_, ?_, ?_, ?_, ?_⟩
      · simp only [List.foldl_cons, List.map_cons, List.sum_cons]
        rw [i1]
        simp only [trackUsage]
        ring
      · simp only [List.foldl_cons, List.map_cons, List.sum_cons]
        rw [i2]
        simp only [trackUsage]
        ring
      · simp only [List.foldl_cons, List.map_cons, List.sum_cons]
        rw [i3]
        simp only [trackUsage]
        ring
      · simp only [List.foldl_cons, List.map_cons, List.sum_cons]
        rw [i4]
        simp only [trackUsage]
        ring
      · simp only [List.foldl_cons, List.map_cons, List.sum_cons]
        rw [i5]
        simp only [trackUsage]
        ring
      · intro hall c hc
        obtain ⟨x, hx⟩ := hall d (by simp)
        have htc : (trackUsage a d).cost = some (c + x) := by
          simp [trackUsage, addCost, hc, hx]
        simp only [List.foldl_cons, List.map_cons, List.sum_cons]
        rw [i6 (fun y hy => hall y (by simp [hy])) (c + x) htc]
        simp only [costOf, hx, Option.getD_some, Option.some.injEq]
        ring

/-- C4.  For every sequence of non-negative usage deltas applied through
`trackUsage`, every field of a subsequent `getTotalUsage` snapshot equals the
exact sum of that field over all deltas applied so far, and every field of the
accumulator is monotonically non-decreasing as further deltas arrive. -/
theorem accountant_sums_and_monotone (ds more : List Usage)
    (h : ∀ d ∈ ds ++ more, fieldsNonneg d) :
    ((getTotalUsage (applyDeltas ds)).prompt_tokens = (ds.map Usage.prompt_tokens).sum ∧
     (getTotalUsage (applyDeltas ds)).completion_tokens = (ds.map Usage.completion_tokens).sum ∧
     (getTotalUsage (applyDeltas ds)).total_tokens = (ds.map Usage.total_tokens).sum ∧
     (getTotalUsage (applyDeltas ds)).cached_tokens = (ds.map Usage.cached_tokens).sum ∧
     (getTotalUsage (applyDeltas ds)).reasoning_tokens = (ds.map Usage.reasoning_tokens).sum ∧
     (getTotalUsage (applyDeltas ds)).cost = some ((ds.map costOf).sum)) ∧
    usageLe (applyDeltas ds) (applyDeltas (ds ++ more)) := by
  have hds : ∀ d ∈ ds, fieldsNonneg d := fun d hd => h d (by simp [hd])
  have hmore : ∀ d ∈ more, fieldsNonneg d := fun d hd => h d (by simp [hd])
  obtain ⟨s1, s2, s3, s4, s5, s6⟩ := foldl_trackUsage_sum ds initialUsage
  constructor
  · refine ⟨?_, ?_, ?_, ?_, ?_, ?_⟩
    · simpa [getTotalUsage, applyDeltas, initialUsage] using s1
    · simpa [getTotalUsage, applyDeltas, initialUsage] using s2
    · simpa [getTotalUsage, applyDeltas, initialUsage] using s3
    · simpa [getTotalUsage, applyDeltas, initialUsage] using s4
    · simpa [getTotalUsage, applyDeltas, initialUsage] using s5
    · have := s6 (fun d hd => (hds d hd).2.2.2.2.2.imp (fun x hx => hx.1)) 0 rfl
      simpa [getTotalUsage, applyDeltas, initialUsage] using this
  · rw [applyDeltas, applyDeltas, List.foldl_append]
    exact foldl_trackUsage_mono more _ hmore

/-- C4, witness: two concrete deltas. -/
theorem accountant_sums_and_monotone_witness :
    (getTotalUsage (applyDeltas [u0])).completion_tokens
        = ([u0].map Usage.completion_tokens).sum ∧
    usageLe (applyDeltas [u0]) (applyDeltas ([u0] ++ [uBig])) := by
  have h : ∀ d ∈ [u0] ++ [uBig], fieldsNonneg d := by
    intro d hd
    simp only [List.mem_append, List.mem_singleton] at hd
    rcases hd with rfl | rfl
    · exact ⟨by norm_num [u0], by norm_num [u0], by norm_num [u0],
        by norm_num [u0], by norm_num [u0], 0, rfl, le_refl 0⟩
    · exact ⟨by norm_num [uBig], by norm_num [uBig], by norm_num [uBig],
        by norm_num [uBig], by norm_num [uBig], 2, rfl, by norm_num⟩
  exact ⟨(accountant_sums_and_monotone [u0] [uBig] h).1.2.1,
    (accountant_sums_and_monotone [u0] [uBig] h).2⟩

lemma chunkListAux_nil {α : Type} (fuel k : ℕ) :
    chunkListAux fuel k ([] : List α) = [] := by
  cases fuel <;> rfl

lemma chunkListAux_flatten {α : Type} (k : ℕ) (hk : 1 ≤ k) :
    ∀ (fuel : ℕ) (xs : List α), xs.length ≤ fuel →
      (chunkListAux fuel k xs).flatten = xs := by
  intro fuel
  induction fuel with
  | zero =>
      intro xs h
      have : xs = [] := List.eq_nil_of_length_eq_zero (by omega)
      subst this
      rfl
  | succ n ih =>
      intro xs h
      cases xs with
      | nil => rfl
      | cons x t =>
          show ((x :: t).take k :: chunkListAux n k ((x :: t).drop k)).flatten = x :: t
          rw [List.flatten_cons,
            ih ((x :: t).drop k)
              (by
                simp only [List.length_cons] at h
                simp only [List.length_drop, List.length_cons]
                omega),
            List.take_append_drop]

lemma chunkList_flatten {α : Type} (k : ℕ) (hk : 1 ≤ k) (xs : List α) :
    (chunkList k xs).flatten = xs :=
  chunkListAux_flatten k hk xs.length xs (le_refl _)

lemma chunkListAux_mem_length {α : Type} :
    ∀ (fuel k : ℕ) (xs : List α) (b : List α),
      b ∈ chunkListAux fuel k xs → b.length ≤ k := by
  intro fuel
  induction fuel with
  | zero => intro k xs b hb; simp [chunkListAux] at hb
  | succ n ih =>
      intro k xs b hb
      cases xs with
      | nil => simp [chunkListAux] at hb
      | cons x t =>
          have hrw : chunkListAux (n + 1) k (x :: t)
              = (x :: t).take k :: chunkListAux n k ((x :: t).drop k) := rfl
          rw [hrw] at hb
          rcases List.mem_cons.mp hb with rfl | hb'
          · simp [List.length_take]
          · exact ih k _ b hb'

lemma chunkList_mem_length {α : Type} (k : ℕ) (xs : List α) (b : List α)
    (hb : b ∈ chunkList k xs) : b.length ≤ k :=
  chunkListAux_mem_length xs.length k xs b hb

lemma chunkList_whole {α : Type} (xs : List α) (h : 1 ≤ xs.length) :
    chunkList xs.length xs = [xs] := by
  cases xs with
  | nil => simp at h
  | cons x t =>
      show chunkListAux (t.length + 1) (x :: t).length (x :: t) = [x :: t]
      have hrw : chunkListAux (t.length + 1) (x :: t).length (x :: t)
          = (x :: t).take (x :: t).length :: chunkListAux t.length (x :: t).length ((x :: t).drop (x :: t).length) := rfl
      rw [hrw, List.take_of_length_le (le_refl _), List.drop_of_length_le (le_refl _),
        chunkListAux_nil]

lemma flushBatch_settlements (k : ℕ) (f : String → Option ℕ → Settle) (gid : ℕ)
    (q q' : PendingQuery) (rest : List PendingQuery) (stats : SchedStats) :
    (flushBatch k f gid (q :: q' :: rest) stats).settlements
      = (q :: q' :: rest).map (fun x => (x.id, f x.context (some gid))) := by
  have hk : 1 ≤ if 0 < k then k else (q :: q' :: rest).length := by
    split
    · omega
    · simp
  show ((chunkList (if 0 < k then k else (q :: q' :: rest).length) (q :: q' :: rest)).map
      (fun b => b.map (fun x => (x.id, f x.context (some gid))))).flatten = _
  rw [← List.map_flatten, chunkList_flatten _ hk]


/-- C5.  When the scheduler drains its pending set: a cohort of exactly one
submission is executed directly with `parallelGroupId = none` and counted as a
sequential query (no group events); in a cohort of two or more submissions,
every member is executed with the same single freshly generated group id. -/
theorem scheduler_cohort_group_id (k : ℕ) (f : String → Option ℕ → Settle)
    (gid : ℕ) (stats : SchedStats) :
    (∀ q : PendingQuery,
      flushBatch k f gid [q] stats
        = ⟨[(q.id, f q.context none)], [], [],
           { stats with sequentialQueries := stats.sequentialQueries + 1 }⟩) ∧
    (∀ (q q' : PendingQuery) (rest : List PendingQuery),
      ∀ p ∈ (flushBatch k f gid (q :: q' :: rest) stats).settlements,
        ∃ x ∈ q :: q' :: rest, p = (x.id, f x.context (some gid))) := by
  constructor
  · intro q
    rfl
  · intro q q' rest p hp
    rw [flushBatch_settlements] at hp
    obtain ⟨x, hx, rfl⟩ := List.mem_map.mp hp
    exact ⟨x, hx, rfl⟩

/-- C5, witness: a singleton cohort. -/
theorem scheduler_cohort_group_id_witness :
    flushBatch 2 fW 7 [⟨0, "a"⟩] stats0
      = ⟨[(0, fW "a" none)], [], [],
         { stats0 with sequentialQueries := stats0.sequentialQueries + 1 }⟩ :=
  (scheduler_cohort_group_id 2 fW 7 stats0).1 ⟨0, "a"⟩

/-- C6.  A cohort of `n > 1` submissions is partitioned into chunks of at
most `maxParallel` members (`max_parallel_children`, or the whole cohort as a
single chunk when the limit is 0); the chunks together are exactly the cohort
in order; and every member's settlement is exactly its own `subagentFn`
result — a function of its own context only — so one member's rejection never
rejects or skips a sibling in the same or a later chunk. -/
theorem scheduler_chunking_independent (k : ℕ) (f : String → Option ℕ → Settle)
    (gid : ℕ) (stats : SchedStats) (q q' : PendingQuery) (rest : List PendingQuery) :
    (∀ b ∈ chunkList (if 0 < k then k else (q :: q' :: rest).length) (q :: q' :: rest),
        b.length ≤ (if 0 < k then k else (q :: q' :: rest).length)) ∧
    (k = 0 → chunkList (if 0 < k then k else (q :: q' :: rest).length) (q :: q' :: rest)
        = [q :: q' :: rest]) ∧
    (chunkList (if 0 < k then k else (q :: q' :: rest).length) (q :: q' :: rest)).flatten
        = q :: q' :: rest ∧
    (flushBatch k f gid (q :: q' :: rest) stats).settlements
        = (q :: q' :: rest).map (fun x => (x.id, f x.context (some gid))) := by
  have hk : 1 ≤ (if 0 < k then k else (q :: q' :: rest).length) := by
    split
    · omega
    · simp
  refine ⟨?_, ?_, chunkList_flatten _ hk _, flushBatch_settlements k f gid q q' rest stats⟩
  · intro b hb
    exact chunkList_mem_length _ _ b hb
  · intro hk0
    subst hk0
    rw [if_neg (lt_irrefl 0)]
    exact chunkList_whole _ (by simp)

/-- C6, witness: three members with limit 2. -/
theorem scheduler_chunking_independent_witness :
    (flushBatch 2 fW 7 [⟨0, "a"⟩, ⟨1, "b"⟩, ⟨2, "c"⟩] stats0).settlements
      = [(⟨0, "a"⟩ : PendingQuery), ⟨1, "b"⟩, ⟨2, "c"⟩].map
          (fun x => (x.id, fW x.context (some 7))) :=
  (scheduler_chunking_independent 2 fW 7 stats0 ⟨0, "a"⟩ ⟨1, "b"⟩ [⟨2, "c"⟩]).2.2.2

/-- C7, counterexample to "start callback fires with the cohort's member
count": a cohort of 2 with `max_parallel_children = 1` fires the start
callback with count 1 (the chunk width), not 2; the completion callback does
receive the member count 2. -/
theorem parallel_start_count_cex :
    (flushBatch 1 fW 7 [⟨0, "a"⟩, ⟨1, "b"⟩] stats0).startEvents = [(7, 1)] ∧
    (flushBatch 1 fW 7 [⟨0, "a"⟩, ⟨1, "b"⟩] stats0).startEvents ≠ [(7, 2)] ∧
    (flushBatch 1 fW 7 [⟨0, "a"⟩, ⟨1, "b"⟩] stats0).completeEvents = [(7, 2)] := by
  decide

/-- C7, amended.  For every cohort of two or more submissions both
observability callbacks fire exactly once per cohort: the start callback once
with `min(cohort size, maxParallel)` — the concurrent-execution width, not
always the member count — and the completion callback once with the cohort's
member count. -/
theorem parallel_callbacks_amended (k : ℕ) (f : String → Option ℕ → Settle)
    (gid : ℕ) (stats : SchedStats) (q q' : PendingQuery) (rest : List PendingQuery) :
    (flushBatch k f gid (q :: q' :: rest) stats).startEvents
        = [(gid, min (q :: q' :: rest).length
              (if 0 < k then k else (q :: q' :: rest).length))] ∧
    (flushBatch k f gid (q :: q' :: rest) stats).completeEvents
        = [(gid, (q :: q' :: rest).length)] :=
  ⟨rfl, rfl⟩

/-- C7, witness: the amended callback counts on a concrete cohort. -/
theorem parallel_callbacks_amended_witness :
    (flushBatch 1 fW 7 [⟨0, "a"⟩, ⟨1, "b"⟩] stats0).startEvents
        = [(7, min ([(⟨0, "a"⟩ : PendingQuery), ⟨1, "b"⟩]).length (if 0 < 1 then 1 else ([(⟨0, "a"⟩ : PendingQuery), ⟨1, "b"⟩]).length))] :=
  (parallel_callbacks_amended 1 fW 7 stats0 ⟨0, "a"⟩ ⟨1, "b"⟩ []).1


lemma runSteps_cons_cont (fuel : ℕ) (cfg : Config) (depth runId : ℕ)
    (isLeaf : Bool) (modelName : String) (i : ℕ) (resp : StepResp)
    (rest : List StepResp) (st st' : RunState) (g g' : GlobalState)
    (hi : i < cfg.maxCalls)
    (hrs : runStep (fuel + 1) cfg depth runId isLeaf modelName i resp st g
      = .cont st' g') :
    runSteps (fuel + 2) cfg depth runId isLeaf modelName i (resp :: rest) st g
      = runSteps (fuel + 1) cfg depth runId isLeaf modelName (i + 1) rest st' g' := by
  rw [runSteps, if_neg (Nat.not_le.mpr hi)]
  show (match runStep (fuel + 1) cfg depth runId isLeaf modelName i resp st g with
        | .cont st' g' =>
            runSteps (fuel + 1) cfg depth runId isLeaf modelName (i + 1) rest st' g'
        | .finished v g' => (.ok v, g')
        | .failed e g' => (.err e, g')
        | .stuck g' => (.stuck, g')) = _
  rw [hrs]

/-- C8.  A step whose provider response has no extractable code
(`success = false`, budgets passing) logs that step with no output field and
no error flag, appends the corrective user-role message after the assistant
message, advances the step counter by exactly one, and executes nothing in
the sandbox — the run state carries the same sandbox state (`st.es`
untouched) and no child run is started — before the loop continues with the
next completion request. -/
theorem no_code_step_recovery (fuel : ℕ) (cfg : Config) (depth runId : ℕ)
    (isLeaf : Bool) (modelName : String) (i : ℕ) (resp : StepResp)
    (rest : List StepResp) (st : RunState) (g : GlobalState)
    (hi : i < cfg.maxCalls) (hs : resp.success = false)
    (hb : checkBudgets cfg (getTotalUsage (trackUsage g.usage resp.usage)) = none) :
    runSteps (fuel + 2) cfg depth runId isLeaf modelName i (resp :: rest) st g
      = runSteps (fuel + 1) cfg depth runId isLeaf modelName (i + 1) rest
          { st with messages := st.messages
              ++ [⟨"assistant", resp.content⟩, ⟨"user", correctiveMessage⟩] }
          { g with
            requests := g.requests ++ [⟨runId, depth, modelName, isLeaf⟩],
            usage := trackUsage g.usage resp.usage,
            log := g.log ++ [.step runId depth (i + 1) none none resp.usage] } := by
  refine runSteps_cons_cont fuel cfg depth runId isLeaf modelName i resp rest st _ g _ hi ?_
  rw [runStep]
  simp only [getTotalUsage] at hb
  simp [getTotalUsage, hb, hs, List.append_assoc]


/-- C8, witness: one no-code response under `cfg3`. -/
theorem no_code_step_recovery_witness :
    runSteps 5 cfg3 0 0 false "primary" 0 [respF] stW0 g0
      = runSteps 4 cfg3 0 0 false "primary" 1 []
          { stW0 with messages := stW0.messages
              ++ [⟨"assistant", respF.content⟩, ⟨"user", correctiveMessage⟩] }
          { g0 with
            requests := g0.requests ++ [⟨0, 0, "primary", false⟩],
            usage := trackUsage g0.usage respF.usage,
            log := g0.log ++ [.step 0 0 1 none none respF.usage] } :=
  no_code_step_recovery 3 cfg3 0 0 false "primary" 0 respF [] stW0 g0
    (by decide) rfl (by decide)

/-- C9.  For an executed step that does not terminate the run
(`__final_result_set__` false), the logged error flag is exactly
`stdoutBuffer.includes("Error")`: true iff the captured buffer contains the
substring "Error" anywhere — printed output mentioning the word is flagged,
and nothing else sets the flag. -/
theorem error_flag_substring (cfg : Config) (depth runId i : ℕ) (resp : StepResp)
    (st : RunState) (es : ExecState) (g : GlobalState)
    (hf : es.finalSet = false) :
    finishStep cfg depth runId i resp st es g
      = .cont
          { st with es := es,
                    messages := st.messages
                      ++ [⟨"user", "Output: \n" ++ truncateText cfg.truncateLen es.buffer⟩] }
          { g with log := g.log ++ [.step runId depth (i + 1)
              (some (truncateText cfg.truncateLen es.buffer))
              (some (containsSubstr es.buffer "Error")) resp.usage] }
      ∧ (containsSubstr es.buffer "Error" = true ↔ "Error".data <:+: es.buffer.data) := by
  constructor
  · rw [finishStep]
    simp [hf]
  · simp [containsSubstr]

/-- C9, witness: a buffer that merely mentions the word Error. -/
theorem error_flag_substring_witness :
    finishStep cfg3 0 0 0 respF stW0 esE g0
      = .cont
          { stW0 with es := esE,
                      messages := stW0.messages
                        ++ [⟨"user", "Output: \n" ++ truncateText cfg3.truncateLen esE.buffer⟩] }
          { g0 with log := g0.log ++ [.step 0 0 1
              (some (truncateText cfg3.truncateLen esE.buffer))
              (some (containsSubstr esE.buffer "Error")) respF.usage] }
      ∧ (containsSubstr esE.buffer "Error" = true ↔ "Error".data <:+: esE.buffer.data) :=
  error_flag_substring cfg3 0 0 0 respF stW0 esE g0 rfl

lemma runStep_budget_eq (fuel : ℕ) (cfg : Config) (depth runId : ℕ)
    (isLeaf : Bool) (modelName : String) (i : ℕ) (resp : StepResp)
    (st : RunState) (g : GlobalState) (e : RunError)
    (hb : checkBudgets cfg (getTotalUsage (trackUsage g.usage resp.usage)) = some e) :
    runStep (fuel + 1) cfg depth runId isLeaf modelName i resp st g
      = .failed e { g with
          requests := g.requests ++ [⟨runId, depth, modelName, isLeaf⟩],
          usage := trackUsage g.usage resp.usage } := by
  rw [runStep]
  simp only [getTotalUsage] at hb
  simp [getTotalUsage, hb]

lemma runStep_noCode_eq (fuel : ℕ) (cfg : Config) (depth runId : ℕ)
    (isLeaf : Bool) (modelName : String) (i : ℕ) (resp : StepResp)
    (st : RunState) (g : GlobalState)
    (hb : checkBudgets cfg (getTotalUsage (trackUsage g.usage resp.usage)) = none)
    (hs : resp.success = false) :
    runStep (fuel + 1) cfg depth runId isLeaf modelName i resp st g
      = .cont
          { st with messages := st.messages
              ++ [⟨"assistant", resp.content⟩, ⟨"user", correctiveMessage⟩] }
          { g with
            requests := g.requests ++ [⟨runId, depth, modelName, isLeaf⟩],
            usage := trackUsage g.usage resp.usage,
            log := g.log ++ [.step runId depth (i + 1) none none resp.usage] } := by
  rw [runStep]
  simp only [getTotalUsage] at hb
  simp [getTotalUsage, hb, hs, List.append_assoc]

lemma runStep_exec_eq (fuel : ℕ) (cfg : Config) (depth runId : ℕ)
    (isLeaf : Bool) (modelName : String) (i : ℕ) (resp : StepResp)
    (st : RunState) (g : GlobalState)
    (hb : checkBudgets cfg (getTotalUsage (trackUsage g.usage resp.usage)) = none)
    (hs : resp.success = true) :
    runStep (fuel + 1) cfg depth runId isLeaf modelName i resp st g
      = (match execCmds fuel cfg depth runId resp.code { st.es with buffer := "" }
            { g with
              requests := g.requests ++ [⟨runId, depth, modelName, isLeaf⟩],
              usage := trackUsage g.usage resp.usage } with
         | (.done, es', g') =>
             finishStep cfg depth runId i resp
               { st with messages := st.messages ++ [⟨"assistant", resp.content⟩] } es' g'
         | (.raised msg, es', g') =>
             finishStep cfg depth runId i resp
               { st with messages := st.messages ++ [⟨"assistant", resp.content⟩] }
               { es' with buffer := es'.buffer ++ "\nError: " ++ msg ++ " " } g'
         | (.stuck, _es', g') => .stuck g') := by
  rw [runStep]
  simp only [getTotalUsage] at hb
  simp [getTotalUsage, hb, hs]


lemma requestsOk_append (cfg : Config) {rs1 rs2 : List ModelRequest}
    (h1 : requestsOk cfg rs1) (h2 : requestsOk cfg rs2) :
    requestsOk cfg (rs1 ++ rs2) := by
  intro r hr
  rcases List.mem_append.mp hr with h | h
  · exact h1 r h
  · exact h2 r h

lemma finishStep_requests (cfg : Config) (depth runId i : ℕ) (resp : StepResp)
    (st : RunState) (es : ExecState) (g : GlobalState) :
    ((finishStep cfg depth runId i resp st es g).global).requests = g.requests := by
  rw [finishStep]
  split <;> rfl

lemma finishStep_requestsOk (cfg : Config) (depth runId i : ℕ) (resp : StepResp)
    (st : RunState) (es : ExecState) (g : GlobalState)
    (hg : requestsOk cfg g.requests) :
    requestsOk cfg ((finishStep cfg depth runId i resp st es g).global).requests := by
  intro r hr
  rw [finishStep_requests] at hr
  exact hg r hr

lemma requests_invariant (cfg : Config) : ∀ fuel : ℕ,
    (∀ (depth runId : ℕ) (ctx : String) (steps : List StepResp) (es : ExecState)
       (g : GlobalState), requestsOk cfg g.requests →
      requestsOk cfg (llmQuery fuel cfg depth runId ctx steps es g).2.2.requests) ∧
    (∀ (depth runId : ℕ) (cmds : List Cmd) (es : ExecState) (g : GlobalState),
      requestsOk cfg g.requests →
      requestsOk cfg (execCmds fuel cfg depth runId cmds es g).2.2.requests) ∧
    (∀ (depth runId : ℕ) (isLeaf : Bool) (modelName : String) (i : ℕ)
       (resp : StepResp) (st : RunState) (g : GlobalState),
      isLeaf = decide (depth = cfg.maxDepth) → requestsOk cfg g.requests →
      requestsOk cfg
        ((runStep fuel cfg depth runId isLeaf modelName i resp st g).global).requests) ∧
    (∀ (depth runId : ℕ) (isLeaf : Bool) (modelName : String) (i : ℕ)
       (oracle : List StepResp) (st : RunState) (g : GlobalState),
      isLeaf = decide (depth = cfg.maxDepth) → requestsOk cfg g.requests →
      requestsOk cfg
        (runSteps fuel cfg depth runId isLeaf modelName i oracle st g).2.requests) ∧
    (∀ (ctx : String) (oracle : List StepResp) (depth : ℕ) (parent : Option ℕ)
       (g : GlobalState), requestsOk cfg g.requests →
      requestsOk cfg (runAgent fuel cfg ctx oracle depth parent g).2.requests) := by
  intro fuel
  induction fuel with
  | zero =>
      refine ⟨?_, ?_, ?_, ?_, ?_⟩
      · intro depth runId ctx steps es g hg
        exact hg
      · intro depth runId cmds es g hg
        exact hg
      · intro depth runId isLeaf modelName i resp st g hm hg
        exact hg
      · intro depth runId isLeaf modelName i oracle st g hm hg
        exact hg
      · intro ctx oracle depth parent g hg
        exact hg
  | succ n ih =>
      obtain ⟨ihQ, ihE, ihP, ihS, ihA⟩ := ih
      refine ⟨?_, ?_, ?_, ?_, ?_⟩
      · -- llmQuery at depth guard or recursion into the child run
        intro depth runId ctx steps es g hg
        rw [llmQuery]
        by_cases h : cfg.maxDepth ≤ depth
        · simp only [if_pos h]
          exact hg
        · simp only [if_neg h]
          rcases hA : runAgent n cfg ctx steps (depth + 1) (some runId) g with ⟨outcome, g'⟩
          have hres := ihA ctx steps (depth + 1) (some runId) g hg
          rw [hA] at hres
          cases outcome <;> exact hres
      · -- execCmds: commands touch requests only through a spawned child
        intro depth runId cmds es g hg
        cases cmds with
        | nil => exact hg
        | cons c cs =>
            cases c with
            | print s => exact ihE depth runId cs _ g hg
            | raiseErr msg => exact hg
            | setFinal v => exact ihE depth runId cs _ g hg
            | spawn ctx steps =>
                have hbody : execCmds (n + 1) cfg depth runId
                    (Cmd.spawn ctx steps :: cs) es g
                    = match llmQuery n cfg depth runId ctx steps es g with
                      | (.ok _, es', g') => execCmds n cfg depth runId cs es' g'
                      | (.error msg, es', g') => (.raised msg, es', g')
                      | (.stuck, es', g') => (.stuck, es', g') := rfl
                rw [hbody]
                rcases hQ : llmQuery n cfg depth runId ctx steps es g with ⟨sr, es', g'⟩
                have hres := ihQ depth runId ctx steps es g hg
                rw [hQ] at hres
                cases sr with
                | ok v => exact ihE depth runId cs es' g' hres
                | error msg => exact hres
                | stuck => exact hres
      · -- runStep: the one place a request is recorded
        intro depth runId isLeaf modelName i resp st g hm hg
        have hg1 : requestsOk cfg
            (g.requests ++ [⟨runId, depth, modelName, isLeaf⟩]) := by
          refine requestsOk_append cfg hg ?_
          intro r hr
          simp only [List.mem_singleton] at hr
          subst hr
          simpa using hm
        rcases hcb : checkBudgets cfg (getTotalUsage (trackUsage g.usage resp.usage))
          with _ | e
        · by_cases hsucc : resp.success = true
          · rw [runStep_exec_eq n cfg depth runId isLeaf modelName i resp st g hcb hsucc]
            rcases hE : execCmds n cfg depth runId resp.code { st.es with buffer := "" }
                { g with
                  requests := g.requests ++ [⟨runId, depth, modelName, isLeaf⟩],
                  usage := trackUsage g.usage resp.usage } with ⟨sig, es', g'⟩
            have hres := ihE depth runId resp.code { st.es with buffer := "" }
                { g with
                  requests := g.requests ++ [⟨runId, depth, modelName, isLeaf⟩],
                  usage := trackUsage g.usage resp.usage } hg1
            rw [hE] at hres
            cases sig with
            | done =>
                exact finishStep_requestsOk cfg depth runId i resp
                  { st with messages := st.messages ++ [⟨"assistant", resp.content⟩] }
                  es' g' hres
            | raised msg =>
                exact finishStep_requestsOk cfg depth runId i resp
                  { st with messages := st.messages ++ [⟨"assistant", resp.content⟩] }
                  { es' with buffer := es'.buffer ++ "\nError: " ++ msg ++ " " } g' hres
            | stuck => exact hres
          · rw [Bool.not_eq_true] at hsucc
            rw [runStep_noCode_eq n cfg depth runId isLeaf modelName i resp st g hcb hsucc]
            exact hg1
        · rw [runStep_budget_eq n cfg depth runId isLeaf modelName i resp st g e hcb]
          exact hg1
      · -- runSteps: thread the invariant through the loop
        intro depth runId isLeaf modelName i oracle st g hm hg
        cases oracle with
        | nil =>
            rw [runSteps]
            by_cases hi : cfg.maxCalls ≤ i
            · simp only [if_pos hi]
              exact hg
            · simp only [if_neg hi]
              exact hg
        | cons resp rest =>
            rw [runSteps]
            by_cases hi : cfg.maxCalls ≤ i
            · simp only [if_pos hi]
              exact hg
            · simp only [if_neg hi]
              have hres := ihP depth runId isLeaf modelName i resp st g hm hg
              cases hP : runStep n cfg depth runId isLeaf modelName i resp st g with
              | cont st' g' =>
                  rw [hP] at hres
                  exact ihS depth runId isLeaf modelName (i + 1) rest st' g' hm hres
              | finished v g' =>
                  rw [hP] at hres
                  exact hres
              | failed e g' =>
                  rw [hP] at hres
                  exact hres
              | stuck g' =>
                  rw [hP] at hres
                  exact hres
      · -- runAgent: allocate the run id, then the loop
        intro ctx oracle depth parent g hg
        rw [runAgent]
        exact ihS depth g.nextRunId (decide (depth = cfg.maxDepth))
          (if depth = 0 then cfg.primaryAgent else cfg.subAgent) 0 oracle _ _ rfl hg


/-- C10.  Every completion request recorded during a whole run tree uses the
leaf-agent system prompt exactly when the issuing run's depth equals
`max_depth` (`is_leaf_agent = (subagent_depth == MAX_DEPTH)`): runs at
`max_depth` issue all their requests with the leaf prompt, and every run at a
different (shallower) depth uses the standard prompt. -/
theorem leaf_prompt_by_depth (cfg : Config) (fuel : ℕ) (ctx : String)
    (oracle : List StepResp) (depth : ℕ) (parent : Option ℕ) (g : GlobalState)
    (hg : requestsOk cfg g.requests) :
    ∀ r ∈ (runAgent fuel cfg ctx oracle depth parent g).2.requests,
      r.promptLeaf = decide (r.depth = cfg.maxDepth) :=
  (requests_invariant cfg fuel).2.2.2.2 ctx oracle depth parent g hg

/-- C10, witness: under `max_depth = 0` the depth-0 run's single request is
recorded with the leaf prompt. -/
theorem leaf_prompt_by_depth_witness :
    ({ runId := 0, depth := 0, modelName := "primary", promptLeaf := true } :
        ModelRequest).promptLeaf
      = decide ((0 : ℕ) = cfgLeaf.maxDepth) :=
  leaf_prompt_by_depth cfgLeaf 10 "x" oracleLeaf 0 none g0
    (fun r hr => absurd hr (List.not_mem_nil r))
    ⟨0, 0, "primary", true⟩ (by decide)

end FastRlm
